import Mathlib

/-!
# Energy Tracker — verification of the specification against the code

Shallow embedding of `energy_tracker.py`. Python floats are modelled as
rationals (`ℚ`); every value a Python float can hold is a dyadic rational,
hence has a terminating decimal expansion, captured below by `DecimalRat`.
Console input is modelled as explicit lists of reply strings; the CSV file
is modelled as an optional list of rows of cell strings (`none` = the path
does not exist), with the `csv` module's cell quoting abstracted away
(the library guarantees each cell round-trips verbatim).
-/

/-- An appliance record, mirroring the dict built by `add_appliance`:
keys `name`, `watts`, `hours_per_day`. -/
structure Appliance where
  name : String
  watts : ℚ
  hours_per_day : ℚ
deriving DecidableEq, Repr, Inhabited

/-! ## Decimal strings: model of Python `float()` parsing and `str()` printing -/

/-- Numeric value of one decimal digit character. -/
def digitVal (c : Char) : ℕ := c.toNat - 48

/-- Value of a big-endian list of digit characters. -/
def digitsToNat (l : List Char) : ℕ := l.foldl (fun a c => 10 * a + digitVal c) 0

/-- Parse an unsigned decimal literal (`123`, `123.45`, `123.`, `.45`),
as accepted by Python's `float()` for the forms this program produces. -/
def parseUnsigned (l : List Char) : Option ℚ :=
  let ip := l.takeWhile Char.isDigit
  let rest := l.dropWhile Char.isDigit
  match rest with
  | [] => if ip.isEmpty then none else some (digitsToNat ip : ℚ)
  | c :: fp =>
      if c == '.' && fp.all Char.isDigit && !(ip.isEmpty && fp.isEmpty) then
        some (Rat.divInt (digitsToNat (ip ++ fp)) ((10 : ℤ) ^ fp.length))
      else none

/-- Model of Python `float(s)`: `none` models a raised `ValueError`. -/
def parseFloat (s : String) : Option ℚ :=
  match s.toList with
  | '-' :: rest => (parseUnsigned rest).map (fun q => -q)
  | '+' :: rest => parseUnsigned rest
  | l => parseUnsigned l

/-- Little-endian digit list of a natural number (`fuel`-structured so the
kernel can evaluate it; `fuel = n` always suffices). -/
def natDigitsRevAux : ℕ → ℕ → List ℕ
  | 0, _ => []
  | fuel + 1, n => if n = 0 then [] else n % 10 :: natDigitsRevAux fuel (n / 10)

/-- Little-endian digits of `n`. -/
def natDigitsRev (n : ℕ) : List ℕ := natDigitsRevAux n n

/-- Value of a little-endian digit list. -/
def valRev : List ℕ → ℕ
  | [] => 0
  | d :: ds => d + 10 * valRev ds

/-- Character for one decimal digit. -/
def digitChar (d : ℕ) : Char := Char.ofNat (48 + d)

/-- Big-endian decimal character string of a natural number. -/
def natChars (n : ℕ) : List Char :=
  if n = 0 then ['0'] else (natDigitsRev n).reverse.map digitChar

/-- `q` has a terminating decimal expansion (true of every Python float):
its reduced denominator divides a power of ten.  `10 ^ q.den` is a
convenient universal exponent: if `q.den = 2^a * 5^b` then
`a, b ≤ q.den`, so `q.den ∣ 10 ^ q.den`. -/
def DecimalRat (q : ℚ) : Prop := q.den ∣ 10 ^ q.den

instance (q : ℚ) : Decidable (DecimalRat q) := by unfold DecimalRat; infer_instance

/-- The unsigned decimal digit run of `|q|` scaled by `10 ^ q.den`:
integer digits, point, and `q.den` (zero-padded) fractional digits. -/
def decBody (q : ℚ) : List Char :=
  natChars (q.num.natAbs * 10 ^ q.den / q.den / 10 ^ q.den) ++ '.' ::
    (List.replicate
        (q.den - (natChars (q.num.natAbs * 10 ^ q.den / q.den % 10 ^ q.den)).length) '0' ++
      natChars (q.num.natAbs * 10 ^ q.den / q.den % 10 ^ q.den))

/-- Model of the decimal text Python writes for a float value (`str(x)` /
the `csv` writer): an exact terminating decimal with at least one digit on
each side of the point.  The exponent `k = q.den` is exact whenever
`DecimalRat q` holds. -/
def floatToStr (q : ℚ) : String :=
  String.mk (if q.num < 0 then '-' :: decBody q else decBody q)

/-- Whitespace for the purposes of Python's `str.strip()` (the characters
this program's inputs can contain). -/
def isSpaceChar (c : Char) : Bool := c = ' ' || c = '\t' || c = '\n' || c = '\r'

/-- Model of Python `str.strip()`. -/
def pyStrip (s : String) : String :=
  String.mk (((s.toList.dropWhile isSpaceChar).reverse.dropWhile isSpaceChar).reverse)

/-- Model of Python `str.lower()` on ASCII text. -/
def pyLower (s : String) : String :=
  String.mk (s.toList.map fun c => if 'A' ≤ c && c ≤ 'Z' then Char.ofNat (c.toNat + 32) else c)

/-! ## Input validation (`get_positive_float`)

Console input is a list of reply strings; the Python loop blocks forever,
so on a finite list the model returns `none` when replies run out. -/

/-- Model of `get_positive_float`: skip replies that fail to parse or are
`≤ 0`, return the first positive value. -/
def get_positive_float : List String → Option ℚ
  | [] => none
  | s :: rest =>
    match parseFloat s with
    | some v => if 0 < v then some v else get_positive_float rest
    | none => get_positive_float rest

/-! ## Energy calculator -/

/-- `calculate_daily_kwh` from the source. -/
def calculate_daily_kwh (watts hours_per_day : ℚ) : ℚ := watts * hours_per_day / 1000

/-- `calculate_monthly_kwh` from the source. -/
def calculate_monthly_kwh (daily_kwh : ℚ) : ℚ := daily_kwh * 30

/-- `calculate_cost` from the source. -/
def calculate_cost (kwh price_per_kwh : ℚ) : ℚ := kwh * price_per_kwh

/-- `add_appliance` from the source: builds the record. -/
def add_appliance (name : String) (watts hours_per_day : ℚ) : Appliance :=
  ⟨name, watts, hours_per_day⟩

/-! ## CSV persistence

A file is a list of rows, each row a list of cell strings; `Option`
distinguishes a missing file (`none`). -/

/-- `save_appliances_to_csv`: header row, then one row per appliance in
list order, numeric cells printed as decimal text. -/
def save_appliances_to_csv (appliances : List Appliance) : List (List String) :=
  ["name", "watts", "hours_per_day"] ::
    appliances.map (fun a => [a.name, floatToStr a.watts, floatToStr a.hours_per_day])

/-- One `DictReader` row: zip the header with the cells, look the three
fields up, convert `watts` and `hours_per_day` with `float()` (a failure —
`ValueError`, or `KeyError`/`TypeError` for a missing cell — propagates as
`Except.error`).  The `name` cell is kept verbatim; Python defers any
missing-`name` error to first use, and no claim exercises that path. -/
def parseRow (header row : List String) : Except String Appliance := do
  let dict := header.zip row
  let wStr ← match dict.lookup "watts" with
    | some v => Except.ok v
    | none => Except.error "KeyError: watts"
  let w ← match parseFloat wStr with
    | some v => Except.ok v
    | none => Except.error ("could not convert string to float: " ++ wStr)
  let hStr ← match dict.lookup "hours_per_day" with
    | some v => Except.ok v
    | none => Except.error "KeyError: hours_per_day"
  let h ← match parseFloat hStr with
    | some v => Except.ok v
    | none => Except.error ("could not convert string to float: " ++ hStr)
  Except.ok ⟨(dict.lookup "name").getD "", w, h⟩

/-- `load_appliances_from_csv`: a missing file (`none`) yields the empty
list (`FileNotFoundError` is caught); an empty file has no header and no
rows; otherwise every data row is parsed in order and the first failure
propagates. -/
def load_appliances_from_csv : Option (List (List String)) → Except String (List Appliance)
  | none => Except.ok []
  | some [] => Except.ok []
  | some (header :: rows) => rows.mapM (parseRow header)

/-! ## Edit flow (`edit_appliance`)

One pass of the `while True` body is modelled by `edit_iter`: the user has
selected a (0-based) index and a sub-menu option together with its reply.
Numeric replies for watts/hours arrive through `get_positive_float`, so the
model carries the parsed value. -/

/-- Sub-menu option of the edit flow with its reply. -/
inductive SubOption where
  | editName (reply : String)
  | editWatts (value : ℚ)
  | editHours (value : ℚ)
  | delete (confirm : String)
  | back
  | other
deriving DecidableEq, Repr

/-- Message printed by one edit-loop pass. -/
inductive EditMsg where
  | nameUpdated
  | nameEmpty
  | wattsUpdated
  | hoursUpdated
  | deleted
  | deleteCanceled
  | backToList
  | invalidOption
  | invalidSelection
deriving DecidableEq, Repr

/-- One pass of the edit loop body after the user selected 0-based index
`idx` (an out-of-range index prints `Invalid selection` and changes
nothing).  Mirrors lines 208–247 of the source. -/
def edit_iter (appliances : List Appliance) (idx : ℕ) (sub : SubOption) :
    List Appliance × EditMsg :=
  match appliances[idx]? with
  | none => (appliances, .invalidSelection)
  | some app =>
    match sub with
    | .editName reply =>
        let new_name := pyStrip reply
        if new_name ≠ "" then
          (appliances.set idx { app with name := new_name }, .nameUpdated)
        else
          (appliances, .nameEmpty)
    | .editWatts v => (appliances.set idx { app with watts := v }, .wattsUpdated)
    | .editHours v => (appliances.set idx { app with hours_per_day := v }, .hoursUpdated)
    | .delete confirm =>
        if pyLower (pyStrip confirm) = "y" then
          (appliances.eraseIdx idx, .deleted)
        else
          (appliances, .deleteCanceled)
    | .back => (appliances, .backToList)
    | .other => (appliances, .invalidOption)

/-- The edit loop: each element is the 1-based selection from `get_int`
(so any natural number; `0` returns to the main menu) paired with the
sub-menu input.  When the reply list runs out the Python loop would block;
the model stops. -/
def edit_loop : List Appliance → List (ℕ × SubOption) → List Appliance
  | appliances, [] => appliances
  | appliances, (choice, sub) :: rest =>
      if choice = 0 then appliances
      else edit_loop (edit_iter appliances (choice - 1) sub).1 rest

/-- `edit_appliance` from the source: an empty list prints a message and
returns at once; otherwise the loop runs. -/
def edit_appliance (appliances : List Appliance) (iters : List (ℕ × SubOption)) :
    List Appliance :=
  if appliances.isEmpty then appliances else edit_loop appliances iters

/-! ## Session controller (`main` loop body) -/

/-- One menu selection together with the inputs its flow consumes.
Numeric inputs arrive through `get_positive_float`/`get_int`, so the model
carries parsed values. -/
inductive MenuChoice where
  | add (name : String) (watts hours_per_day : ℚ)
  | calcOne (idx : ℕ) (price_per_kwh : ℚ)
  | calcAll (price_per_kwh : ℚ)
  | editMenu (iters : List (ℕ × SubOption))
  | view
  | exitApp
  | other
deriving Repr

/-- One line of the per-appliance report of the CALC_ALL flow. -/
structure CalcLine where
  name : String
  monthly_kwh : ℚ
  monthly_hours : ℚ
  cost : ℚ
deriving DecidableEq, Repr

/-- What a menu flow displays. -/
inductive MainOutput where
  | added (name : String)
  | nameEmptyError
  | noAppliances
  | singleReport (name : String) (daily monthly cost : ℚ)
  | allReport (lines : List CalcLine) (total_monthly_kwh total_cost : ℚ)
  | edited
  | viewed (lines : List (ℕ × String × ℚ × ℚ))
  | exited
  | invalidOption
deriving Repr

/-- `view_appliances` from the source: the indexed display lines. -/
def view_appliances (appliances : List Appliance) : List (ℕ × String × ℚ × ℚ) :=
  appliances.enum.map (fun p => (p.1 + 1, p.2.name, p.2.watts, p.2.hours_per_day))

/-- One iteration of the `main` loop: dispatch on the menu option and
return the appliance list afterwards together with what was displayed.
Mirrors lines 272–353 of the source. -/
def main_step (appliances : List Appliance) : MenuChoice → List Appliance × MainOutput
  | .add name watts hours_per_day =>
      let name := pyStrip name
      if name = "" then (appliances, .nameEmptyError)
      else (appliances ++ [add_appliance name watts hours_per_day], .added name)
  | .calcOne idx price_per_kwh =>
      if appliances.isEmpty then (appliances, .noAppliances)
      else
        match appliances[idx]? with
        | none => (appliances, .invalidOption)
        | some app =>
            let daily := calculate_daily_kwh app.watts app.hours_per_day
            let monthly := calculate_monthly_kwh daily
            let cost := calculate_cost monthly price_per_kwh
            (appliances, .singleReport app.name daily monthly cost)
  | .calcAll price_per_kwh =>
      if appliances.isEmpty then (appliances, .noAppliances)
      else
        let r := appliances.foldl
          (fun (acc : List CalcLine × ℚ × ℚ) app =>
            let daily_kwh := calculate_daily_kwh app.watts app.hours_per_day
            let monthly_kwh := calculate_monthly_kwh daily_kwh
            let monthly_hours := app.hours_per_day * 30
            let cost := calculate_cost monthly_kwh price_per_kwh
            (acc.1 ++ [⟨app.name, monthly_kwh, monthly_hours, cost⟩],
             acc.2.1 + monthly_kwh, acc.2.2 + cost))
          ([], 0, 0)
        (appliances, .allReport r.1 r.2.1 r.2.2)
  | .editMenu iters => (edit_appliance appliances iters, .edited)
  | .view => (appliances, .viewed (view_appliances appliances))
  | .exitApp => (appliances, .exited)
  | .other => (appliances, .invalidOption)

/-- The data-model invariant of §3: non-empty name, strictly positive
watts and hours. -/
def validAppliance (a : Appliance) : Prop :=
  a.name ≠ "" ∧ 0 < a.watts ∧ 0 < a.hours_per_day

instance (a : Appliance) : Decidable (validAppliance a) := by
  unfold validAppliance; infer_instance

/-- Every appliance in the list satisfies the invariant. -/
def validAll (l : List Appliance) : Prop := ∀ a ∈ l, validAppliance a

instance (l : List Appliance) : Decidable (validAll l) := by
  unfold validAll; infer_instance

/-- The numeric payloads of a list of edit-loop inputs are positive — the
contract `get_positive_float` provides for watts/hours replies. -/
def posEditInputs (iters : List (ℕ × SubOption)) : Prop :=
  ∀ p ∈ iters, match p.2 with
    | SubOption.editWatts v => 0 < v
    | SubOption.editHours v => 0 < v
    | _ => True

/-! ## Digit-string lemmas -/

theorem digitVal_digitChar {d : ℕ} (h : d < 10) : digitVal (digitChar d) = d := by
  interval_cases d <;> rfl

theorem isDigit_digitChar {d : ℕ} (h : d < 10) : (digitChar d).isDigit = true := by
  interval_cases d <;> rfl

theorem ne_sign_of_isDigit {c : Char} (h : c.isDigit = true) : c ≠ '-' ∧ c ≠ '+' := by
  constructor <;> rintro rfl <;> simp at h

theorem digitsToNat_cons (c : Char) (t : List Char) :
    digitsToNat (c :: t) = t.foldl (fun a c => 10 * a + digitVal c) (digitVal c) := by
  simp [digitsToNat]

theorem digits_foldl (l : List Char) (a : ℕ) :
    l.foldl (fun a c => 10 * a + digitVal c) a = a * 10 ^ l.length + digitsToNat l := by
  induction l generalizing a with
  | nil => simp [digitsToNat]
  | cons c t ih =>
    rw [List.foldl_cons, ih (10 * a + digitVal c), digitsToNat_cons, ih (digitVal c)]
    simp [List.length_cons]
    ring

theorem digitsToNat_append (l1 l2 : List Char) :
    digitsToNat (l1 ++ l2) = digitsToNat l1 * 10 ^ l2.length + digitsToNat l2 := by
  unfold digitsToNat
  rw [List.foldl_append, digits_foldl]
  rfl

theorem digitsToNat_replicate_zero (j : ℕ) : digitsToNat (List.replicate j '0') = 0 := by
  induction j with
  | zero => rfl
  | succ j ih =>
    rw [List.replicate_succ, digitsToNat_cons, digits_foldl, ih]
    have h0 : digitVal '0' = 0 := rfl
    rw [h0]
    simp

theorem digitsToNat_reverse_map (L : List ℕ) (h : ∀ d ∈ L, d < 10) :
    digitsToNat (L.reverse.map digitChar) = valRev L := by
  induction L with
  | nil => rfl
  | cons d t ih =>
    rw [List.reverse_cons, List.map_append, digitsToNat_append,
      ih (fun x hx => h x (List.mem_cons_of_mem _ hx))]
    simp [valRev, digitsToNat_cons, digitVal_digitChar (h d (List.mem_cons_self _ _))]
    ring

theorem valRev_natDigitsRevAux : ∀ fuel n, n ≤ fuel → valRev (natDigitsRevAux fuel n) = n := by
  intro fuel
  induction fuel with
  | zero => intro n h; interval_cases n; rfl
  | succ fuel ih =>
    intro n h
    simp only [natDigitsRevAux]
    split
    · simp [valRev]; omega
    · rename_i hn
      have hlt : n / 10 < n := Nat.div_lt_self (by omega) (by norm_num)
      rw [valRev, ih (n / 10) (by omega)]
      omega

theorem natDigitsRevAux_lt : ∀ fuel n d, d ∈ natDigitsRevAux fuel n → d < 10 := by
  intro fuel
  induction fuel with
  | zero => intro n d h; simp [natDigitsRevAux] at h
  | succ fuel ih =>
    intro n d h
    simp only [natDigitsRevAux] at h
    split at h
    · simp at h
    · rcases List.mem_cons.mp h with h1 | h2
      · subst h1; exact Nat.mod_lt _ (by norm_num)
      · exact ih _ _ h2

theorem natDigitsRevAux_length :
    ∀ fuel n k, n ≤ fuel → n < 10 ^ k → (natDigitsRevAux fuel n).length ≤ k := by
  intro fuel
  induction fuel with
  | zero => intro n k h1 h2; interval_cases n; simp [natDigitsRevAux]
  | succ fuel ih =>
    intro n k h1 h2
    simp only [natDigitsRevAux]
    split
    · simp
    · rename_i hn
      cases k with
      | zero => simp at h2; omega
      | succ k =>
        simp only [List.length_cons]
        have hq : n / 10 < 10 ^ k := by
          apply Nat.div_lt_of_lt_mul
          rw [pow_succ] at h2
          omega
        have hfuel : n / 10 ≤ fuel := by
          have := Nat.div_lt_self (show 0 < n by omega) (show 1 < 10 by norm_num)
          omega
        have := ih (n / 10) k hfuel hq
        omega

theorem digitsToNat_natChars (n : ℕ) : digitsToNat (natChars n) = n := by
  unfold natChars
  split
  · rename_i h; rw [h]; rfl
  · rw [natDigitsRev, digitsToNat_reverse_map _ (fun d hd => natDigitsRevAux_lt _ _ _ hd),
      valRev_natDigitsRevAux n n le_rfl]

theorem natChars_ne_nil (n : ℕ) : natChars n ≠ [] := by
  unfold natChars
  split
  · simp
  · rename_i hn
    simp only [natDigitsRev, ne_eq, List.map_eq_nil_iff, List.reverse_eq_nil_iff]
    cases n with
    | zero => exact absurd rfl hn
    | succ m =>
      simp only [natDigitsRevAux]
      rw [if_neg (by omega)]
      simp

theorem natChars_all_digits (n : ℕ) : ∀ c ∈ natChars n, c.isDigit = true := by
  unfold natChars
  split
  · intro c hc
    simp at hc
    subst hc
    rfl
  · intro c hc
    simp only [natDigitsRev, List.mem_map, List.mem_reverse] at hc
    obtain ⟨d, hd, rfl⟩ := hc
    exact isDigit_digitChar (natDigitsRevAux_lt _ _ _ hd)

theorem natChars_length_le {n k : ℕ} (h : n < 10 ^ k) (hk : 1 ≤ k) :
    (natChars n).length ≤ k := by
  unfold natChars
  split
  · simpa using hk
  · simp only [List.length_map, List.length_reverse, natDigitsRev]
    exact natDigitsRevAux_length n n k le_rfl h

theorem takeWhile_middle (p : Char → Bool) :
    ∀ (l1 : List Char) (x : Char) (l2 : List Char), (∀ c ∈ l1, p c = true) → p x = false →
      (l1 ++ x :: l2).takeWhile p = l1 ∧ (l1 ++ x :: l2).dropWhile p = x :: l2 := by
  intro l1
  induction l1 with
  | nil =>
    intro x l2 _ hp
    simp [List.takeWhile_cons, List.dropWhile_cons, hp]
  | cons c t ih =>
    intro x l2 h hp
    have hc : p c = true := h c (List.mem_cons_self _ _)
    have := ih x l2 (fun d hd => h d (List.mem_cons_of_mem _ hd)) hp
    simp [List.takeWhile_cons, List.dropWhile_cons, hc, hp, this.1, this.2]

/-! ## Round-trip: `parseFloat` inverts `floatToStr` on terminating decimals -/

theorem parseFloat_mk_not_sign (c : Char) (l : List Char) (h1 : c ≠ '-') (h2 : c ≠ '+') :
    parseFloat (String.mk (c :: l)) = parseUnsigned (c :: l) := by
  show (match c :: l with
    | '-' :: rest => (parseUnsigned rest).map (fun q => -q)
    | '+' :: rest => parseUnsigned rest
    | l => parseUnsigned l) = parseUnsigned (c :: l)
  split
  · rename_i heq; injection heq with hc _; exact absurd hc h1
  · rename_i heq; injection heq with hc _; exact absurd hc h2
  · rfl

theorem parseUnsigned_decimalBody (ipN fpN k : ℕ) (hk : 1 ≤ k) (hfp : fpN < 10 ^ k) :
    parseUnsigned
        (natChars ipN ++ '.' ::
          (List.replicate (k - (natChars fpN).length) '0' ++ natChars fpN)) =
      some (Rat.divInt (ipN * 10 ^ k + fpN) (10 ^ k)) := by
  have hlen0 : (natChars fpN).length ≤ k := natChars_length_le hfp hk
  have hfpchars :
      ∀ c ∈ List.replicate (k - (natChars fpN).length) '0' ++ natChars fpN, c.isDigit = true := by
    intro c hc
    rcases List.mem_append.mp hc with h | h
    · rw [List.eq_of_mem_replicate h]; rfl
    · exact natChars_all_digits _ c h
  have hdot : ('.' : Char).isDigit = false := rfl
  have hsplit := takeWhile_middle Char.isDigit (natChars ipN) '.'
    (List.replicate (k - (natChars fpN).length) '0' ++ natChars fpN)
    (natChars_all_digits ipN) hdot
  unfold parseUnsigned
  rw [hsplit.1, hsplit.2]
  dsimp only
  have hipne : (natChars ipN).isEmpty = false := by
    cases h : natChars ipN with
    | nil => exact absurd h (natChars_ne_nil ipN)
    | cons a t => rfl
  have hlenfp :
      (List.replicate (k - (natChars fpN).length) '0' ++ natChars fpN).length = k := by
    simp [List.length_append, List.length_replicate]
    omega
  have hval :
      digitsToNat (List.replicate (k - (natChars fpN).length) '0' ++ natChars fpN) = fpN := by
    rw [digitsToNat_append, digitsToNat_replicate_zero, digitsToNat_natChars]
    simp
  rw [if_pos (by
    simp only [hipne, Bool.and_false, Bool.false_and, Bool.not_false, Bool.and_true,
      beq_self_eq_true, Bool.true_and, List.all_eq_true]
    exact hfpchars)]
  congr 1
  rw [digitsToNat_append, hlenfp, hval, digitsToNat_natChars]
  push_cast
  ring

theorem parseFloat_mk_neg (l : List Char) :
    parseFloat (String.mk ('-' :: l)) = (parseUnsigned l).map (fun q => -q) := by
  show (match '-' :: l with
    | '-' :: rest => (parseUnsigned rest).map (fun q => -q)
    | '+' :: rest => parseUnsigned rest
    | l => parseUnsigned l) = (parseUnsigned l).map (fun q => -q)
  split
  · rename_i heq; injection heq with _ hrest; rw [hrest]
  · rename_i heq; injection heq with hc _; exact absurd hc (by decide)
  · rename_i hne _; exact ((hne l) rfl).elim

set_option maxRecDepth 8000 in
theorem parseFloat_floatToStr {q : ℚ} (h : DecimalRat q) : parseFloat (floatToStr q) = some q := by
  obtain ⟨t, ht⟩ := h
  have hden : 0 < q.den := q.pos
  have hk : 1 ≤ q.den := hden
  have h10 : 0 < 10 ^ q.den := by positivity
  have ht0 : (t : ℤ) ≠ 0 := by
    intro hc
    have : t = 0 := by exact_mod_cast hc
    rw [this, Nat.mul_zero] at ht
    omega
  have hm : q.num.natAbs * 10 ^ q.den / q.den = q.num.natAbs * t := by
    rw [ht, show q.num.natAbs * (q.den * t) = q.den * (q.num.natAbs * t) by ring]
    exact Nat.mul_div_cancel_left _ hden
  have hmod : (q.num.natAbs * 10 ^ q.den / q.den) % 10 ^ q.den < 10 ^ q.den :=
    Nat.mod_lt _ h10
  have hparse := parseUnsigned_decimalBody
    ((q.num.natAbs * 10 ^ q.den / q.den) / 10 ^ q.den)
    ((q.num.natAbs * 10 ^ q.den / q.den) % 10 ^ q.den) q.den hk hmod
  have hsum : ((((q.num.natAbs * 10 ^ q.den / q.den) / 10 ^ q.den : ℕ) : ℤ) * 10 ^ q.den +
      (((q.num.natAbs * 10 ^ q.den / q.den) % 10 ^ q.den : ℕ) : ℤ))
      = ((q.num.natAbs * t : ℕ) : ℤ) := by
    have h1 : (q.num.natAbs * 10 ^ q.den / q.den) / 10 ^ q.den * 10 ^ q.den +
        (q.num.natAbs * 10 ^ q.den / q.den) % 10 ^ q.den
        = q.num.natAbs * 10 ^ q.den / q.den := Nat.div_add_mod' _ _
    calc ((((q.num.natAbs * 10 ^ q.den / q.den) / 10 ^ q.den : ℕ) : ℤ) * 10 ^ q.den +
        (((q.num.natAbs * 10 ^ q.den / q.den) % 10 ^ q.den : ℕ) : ℤ))
        = (((q.num.natAbs * 10 ^ q.den / q.den) / 10 ^ q.den * 10 ^ q.den +
            (q.num.natAbs * 10 ^ q.den / q.den) % 10 ^ q.den : ℕ) : ℤ) := by
          push_cast
          ring
      _ = ((q.num.natAbs * 10 ^ q.den / q.den : ℕ) : ℤ) := by rw [h1]
      _ = ((q.num.natAbs * t : ℕ) : ℤ) := by rw [hm]
  have hvalue : Rat.divInt
      ((((q.num.natAbs * 10 ^ q.den / q.den) / 10 ^ q.den : ℕ) : ℤ) * 10 ^ q.den +
        (((q.num.natAbs * 10 ^ q.den / q.den) % 10 ^ q.den : ℕ) : ℤ)) (10 ^ q.den)
      = Rat.divInt q.num.natAbs q.den := by
    rw [hsum, show ((10 : ℤ) ^ q.den) = (q.den : ℤ) * t by exact_mod_cast ht, Nat.cast_mul]
    exact Rat.divInt_mul_right ht0
  by_cases hneg : q.num < 0
  · unfold floatToStr decBody
    rw [if_pos hneg]
    rw [parseFloat_mk_neg, hparse]
    simp only [Option.map_some']
    congr 1
    rw [hvalue, show ((q.num.natAbs : ℤ)) = -q.num from by
      rw [Int.ofNat_natAbs_of_nonpos (le_of_lt hneg)], Rat.neg_divInt, neg_neg,
      Rat.num_divInt_den]
  · obtain ⟨c, rest, hcons⟩ :
        ∃ c rest, natChars ((q.num.natAbs * 10 ^ q.den / q.den) / 10 ^ q.den) = c :: rest := by
      cases hnc : natChars ((q.num.natAbs * 10 ^ q.den / q.den) / 10 ^ q.den) with
      | nil => exact absurd hnc (natChars_ne_nil _)
      | cons a l => exact ⟨a, l, rfl⟩
    have hcd : c.isDigit = true :=
      natChars_all_digits _ c (by rw [hcons]; exact List.mem_cons_self _ _)
    have hcsign := ne_sign_of_isDigit hcd
    unfold floatToStr decBody
    rw [if_neg hneg]
    rw [hcons, List.cons_append, parseFloat_mk_not_sign c _ hcsign.1 hcsign.2,
      ← List.cons_append, ← hcons, hparse, hvalue,
      show ((q.num.natAbs : ℤ)) = q.num from by
        rw [Int.natAbs_of_nonneg (not_lt.mp hneg)],
      Rat.num_divInt_den]

theorem parseRow_std_ok (n fw fh : String) {w h : ℚ}
    (hw : parseFloat fw = some w) (hh : parseFloat fh = some h) :
    parseRow ["name", "watts", "hours_per_day"] [n, fw, fh] = Except.ok ⟨n, w, h⟩ := by
  unfold parseRow
  simp [List.lookup, Bind.bind, Except.bind, hw, hh]

theorem parseRow_std_error (n fw fh : String)
    (hbad : parseFloat fw = none ∨ parseFloat fh = none) :
    ∃ e, parseRow ["name", "watts", "hours_per_day"] [n, fw, fh] = Except.error e := by
  unfold parseRow
  cases hfw : parseFloat fw with
  | none =>
    exact ⟨"could not convert string to float: " ++ fw,
      by simp [List.lookup, Bind.bind, Except.bind, hfw]⟩
  | some w =>
    cases hfh : parseFloat fh with
    | none =>
      exact ⟨"could not convert string to float: " ++ fh,
        by simp [List.lookup, Bind.bind, Except.bind, hfw, hfh]⟩
    | some h =>
      rcases hbad with hb | hb
      · rw [hfw] at hb; cases hb
      · rw [hfh] at hb; cases hb

theorem mapM_error_of_mem {α β : Type} (f : α → Except String β) :
    ∀ (l : List α) (x : α), x ∈ l → (∃ e0, f x = Except.error e0) →
      ∃ e, l.mapM f = Except.error e := by
  intro l
  induction l with
  | nil => intro x hx _; simp at hx
  | cons a tl ih =>
    intro x hx hex
    obtain ⟨e0, hfx⟩ := hex
    rw [List.mapM_cons]
    cases hfa : f a with
    | error e => exact ⟨e, rfl⟩
    | ok v =>
      rcases List.mem_cons.mp hx with rfl | hxt
      · rw [hfa] at hfx; cases hfx
      · obtain ⟨e, he⟩ := ih x hxt ⟨e0, hfx⟩
        refine ⟨e, ?_⟩
        show List.cons v <$> List.mapM f tl = Except.error e
        rw [he]
        rfl

theorem mapM_parseRow_map (apps : List Appliance)
    (hd : ∀ a ∈ apps, DecimalRat a.watts ∧ DecimalRat a.hours_per_day) :
    (apps.map (fun a => [a.name, floatToStr a.watts, floatToStr a.hours_per_day])).mapM
      (parseRow ["name", "watts", "hours_per_day"]) = Except.ok apps := by
  induction apps with
  | nil => rfl
  | cons a tl ih =>
    rw [List.map_cons, List.mapM_cons]
    have ha := hd a (List.mem_cons_self _ _)
    rw [parseRow_std_ok a.name _ _ (parseFloat_floatToStr ha.1) (parseFloat_floatToStr ha.2),
      ih (fun x hx => hd x (List.mem_cons_of_mem _ hx))]
    rfl

theorem load_save_round_trip (apps : List Appliance)
    (hd : ∀ a ∈ apps, DecimalRat a.watts ∧ DecimalRat a.hours_per_day) :
    load_appliances_from_csv (some (save_appliances_to_csv apps)) = Except.ok apps := by
  unfold load_appliances_from_csv save_appliances_to_csv
  exact mapM_parseRow_map apps hd

/-! ## Behavior of `get_positive_float` -/

theorem get_positive_float_eq_head_of_valid (inputs : List String) :
    get_positive_float inputs =
      ((inputs.filterMap parseFloat).filter (fun v => decide (0 < v))).head? := by
  induction inputs with
  | nil => rfl
  | cons s rest ih =>
    cases hp : parseFloat s with
    | none => simp only [get_positive_float, hp, List.filterMap_cons]; exact ih
    | some v =>
      simp only [get_positive_float, hp, List.filterMap_cons, List.filter_cons]
      by_cases hv : 0 < v
      · rw [if_pos hv, if_pos (by simpa using hv)]
        rfl
      · rw [if_neg hv, if_neg (by simpa using hv)]
        exact ih

theorem get_positive_float_pos :
    ∀ (inputs : List String) (v : ℚ), get_positive_float inputs = some v → 0 < v := by
  intro inputs
  induction inputs with
  | nil => intro v h; simp [get_positive_float] at h
  | cons s rest ih =>
    intro v h
    cases hp : parseFloat s with
    | none => simp only [get_positive_float, hp] at h; exact ih v h
    | some w =>
      simp only [get_positive_float, hp] at h
      by_cases hw : 0 < w
      · rw [if_pos hw] at h
        rw [← Option.some.inj h]
        exact hw
      · rw [if_neg hw] at h
        exact ih v h

/-! ## Edit-flow and session-controller lemmas -/

theorem validAll_edit_iter (apps : List Appliance) (i : ℕ) (sub : SubOption)
    (hv : validAll apps)
    (hsub : match sub with
      | SubOption.editWatts v => 0 < v
      | SubOption.editHours v => 0 < v
      | _ => True) :
    validAll (edit_iter apps i sub).1 := by
  unfold edit_iter
  cases hget : apps[i]? with
  | none => exact hv
  | some a =>
    have ha : a ∈ apps := List.getElem?_mem hget
    cases sub with
    | editName r =>
      dsimp only
      by_cases hr : pyStrip r ≠ ""
      · rw [if_pos hr]
        intro x hx
        rcases List.mem_or_eq_of_mem_set hx with hx' | rfl
        · exact hv x hx'
        · exact ⟨hr, (hv a ha).2.1, (hv a ha).2.2⟩
      · rw [if_neg hr]
        exact hv
    | editWatts v =>
      dsimp only
      intro x hx
      rcases List.mem_or_eq_of_mem_set hx with hx' | rfl
      · exact hv x hx'
      · exact ⟨(hv a ha).1, hsub, (hv a ha).2.2⟩
    | editHours v =>
      dsimp only
      intro x hx
      rcases List.mem_or_eq_of_mem_set hx with hx' | rfl
      · exact hv x hx'
      · exact ⟨(hv a ha).1, (hv a ha).2.1, hsub⟩
    | delete conf =>
      dsimp only
      by_cases hc : pyLower (pyStrip conf) = "y"
      · rw [if_pos hc]
        intro x hx
        rw [List.eraseIdx_eq_take_drop_succ] at hx
        rcases List.mem_append.mp hx with hx' | hx'
        · exact hv x (List.take_subset _ _ hx')
        · exact hv x (List.drop_subset _ _ hx')
      · rw [if_neg hc]
        exact hv
    | back => exact hv
    | other => exact hv

theorem validAll_edit_loop (iters : List (ℕ × SubOption)) :
    ∀ apps, validAll apps → posEditInputs iters → validAll (edit_loop apps iters) := by
  induction iters with
  | nil => intro apps hv _; exact hv
  | cons p rest ih =>
    intro apps hv hpos
    obtain ⟨choice, sub⟩ := p
    rw [edit_loop]
    by_cases hc : choice = 0
    · rw [if_pos hc]; exact hv
    · rw [if_neg hc]
      exact ih _ (validAll_edit_iter apps (choice - 1) sub hv
          (hpos _ (List.mem_cons_self _ _)))
        (fun q hq => hpos q (List.mem_cons_of_mem _ hq))

theorem validAll_edit_appliance (apps : List Appliance) (iters : List (ℕ × SubOption))
    (hv : validAll apps) (hpos : posEditInputs iters) :
    validAll (edit_appliance apps iters) := by
  unfold edit_appliance
  by_cases he : apps.isEmpty
  · rw [if_pos he]; exact hv
  · rw [if_neg he]; exact validAll_edit_loop iters apps hv hpos

theorem validAll_add (apps : List Appliance) (n : String) (w h : ℚ)
    (hv : validAll apps) (hw : 0 < w) (hh : 0 < h) :
    validAll (main_step apps (.add n w h)).1 := by
  unfold main_step
  dsimp only
  by_cases hn : pyStrip n = ""
  · rw [if_pos hn]; exact hv
  · rw [if_neg hn]
    intro x hx
    rcases List.mem_append.mp hx with hx' | hx'
    · exact hv x hx'
    · rw [List.mem_singleton.mp hx']
      exact ⟨hn, hw, hh⟩

theorem main_step_calcOne_fst (apps : List Appliance) (idx : ℕ) (price : ℚ) :
    (main_step apps (.calcOne idx price)).1 = apps := by
  unfold main_step
  dsimp only
  split
  · rfl
  · split <;> rfl

theorem main_step_calcAll_fst (apps : List Appliance) (price : ℚ) :
    (main_step apps (.calcAll price)).1 = apps := by
  unfold main_step
  dsimp only
  split <;> rfl

theorem main_step_view_fst (apps : List Appliance) :
    (main_step apps .view).1 = apps := rfl

/-! ## Claims -/

/-- C1, counterexample: the claim says the invariant (non-empty name,
positive watts/hours) is enforced by the load operation, but
`load_appliances_from_csv` performs no validation: a stored row with
watts `-5` is loaded into the in-memory list unchanged, violating the
invariant. -/
theorem load_admits_invalid_appliance :
    load_appliances_from_csv
        (some [["name", "watts", "hours_per_day"], ["Lamp", "-5", "3"]]) =
      Except.ok [{ name := "Lamp", watts := -5, hours_per_day := 3 }] ∧
    ¬ validAppliance { name := "Lamp", watts := -5, hours_per_day := 3 } := by
  constructor
  · rfl
  · intro hv
    have := hv.2.1
    norm_num at this

/-- C1 (amended): the invariant — non-empty name, strictly positive watts
and hours — is preserved by the add flow and by every edit-flow operation
(given the positive values `get_positive_float` supplies); the load
operation performs no validation of its own, so after a load the invariant
holds exactly when the file's rows already satisfy it, in particular for a
file saved from a valid list. -/
theorem invariant_preserved_add_edit_load :
    (∀ (apps : List Appliance) (n : String) (w h : ℚ), validAll apps → 0 < w → 0 < h →
      validAll (main_step apps (.add n w h)).1) ∧
    (∀ (apps : List Appliance) (iters : List (ℕ × SubOption)), validAll apps →
      posEditInputs iters → validAll (edit_appliance apps iters)) ∧
    (∀ apps : List Appliance, validAll apps →
      (∀ a ∈ apps, DecimalRat a.watts ∧ DecimalRat a.hours_per_day) →
      ∃ l, load_appliances_from_csv (some (save_appliances_to_csv apps)) = Except.ok l ∧
        validAll l) :=
  ⟨validAll_add, validAll_edit_appliance,
    fun apps hv hd => ⟨apps, load_save_round_trip apps hd, hv⟩⟩

/-- C1 witness: adding "Lamp" (60 W, 5 h) to the empty list preserves the
invariant. -/
theorem invariant_preserved_add_edit_load_witness :
    validAll (main_step [] (.add "Lamp" 60 5)).1 :=
  invariant_preserved_add_edit_load.1 [] "Lamp" 60 5 (by decide) (by decide) (by decide)

/-- C2: saving any list of appliances (with float-representable, i.e.
terminating-decimal, numeric fields) and loading it back succeeds and
returns an equal list: same length, same order, names matching exactly and
numeric fields exactly equal (hence within any tolerance). -/
theorem save_load_round_trip :
    ∀ apps : List Appliance, (∀ a ∈ apps, DecimalRat a.watts ∧ DecimalRat a.hours_per_day) →
      load_appliances_from_csv (some (save_appliances_to_csv apps)) = Except.ok apps :=
  load_save_round_trip

/-- C2 witness: a two-element list (one fractional watts value, `243/2 =
121.5`) round-trips exactly; the empty list is also covered by the theorem
and holds by computation. -/
theorem save_load_round_trip_witness :
    (∀ a ∈ ([⟨"Lamp", 60, 5⟩, ⟨"TV", Rat.divInt 243 2, 4⟩] : List Appliance),
      DecimalRat a.watts ∧ DecimalRat a.hours_per_day) ∧
    load_appliances_from_csv
        (some (save_appliances_to_csv [⟨"Lamp", 60, 5⟩, ⟨"TV", Rat.divInt 243 2, 4⟩])) =
      Except.ok [⟨"Lamp", 60, 5⟩, ⟨"TV", Rat.divInt 243 2, 4⟩] :=
  ⟨by decide, save_load_round_trip [⟨"Lamp", 60, 5⟩, ⟨"TV", Rat.divInt 243 2, 4⟩] (by decide)⟩

/-- C3: loading from a non-existent path (`none`) returns the empty list
and no error. -/
theorem load_missing_file_empty : load_appliances_from_csv none = Except.ok [] := rfl

/-- C4: when loading an existing file, a row whose watts or hours cell is
not numeric makes the whole load return an error (the `ValueError` from
`float()` propagates); the bad row is never silently skipped. -/
theorem load_bad_numeric_errors :
    ∀ (rows : List (List String)) (n w h : String), [n, w, h] ∈ rows →
      (parseFloat w = none ∨ parseFloat h = none) →
      ∃ e, load_appliances_from_csv (some (["name", "watts", "hours_per_day"] :: rows)) =
        Except.error e := by
  intro rows n w h hmem hbad
  unfold load_appliances_from_csv
  exact mapM_error_of_mem _ rows [n, w, h] hmem (parseRow_std_error n w h hbad)

/-- C4 witness: a file whose single row has watts cell `"abc"` fails to
load. -/
theorem load_bad_numeric_errors_witness :
    ∃ e, load_appliances_from_csv
        (some [["name", "watts", "hours_per_day"], ["Lamp", "abc", "3"]]) =
      Except.error e :=
  load_bad_numeric_errors [["Lamp", "abc", "3"]] "Lamp" "abc" "3"
    (List.mem_singleton.mpr rfl) (Or.inl rfl)

/-- C5: the calculator functions compute exactly the spec's formulas, and
the concrete values check out: `daily_kwh 100 2 = 0.2`,
`monthly_kwh 0.2 = 6`, `cost 6 0.5 = 3`. -/
theorem calculator_formulas :
    (∀ w h : ℚ, calculate_daily_kwh w h = w * h / 1000) ∧
    (∀ d : ℚ, calculate_monthly_kwh d = d * 30) ∧
    (∀ k p : ℚ, calculate_cost k p = k * p) ∧
    calculate_daily_kwh 100 2 = (0.2 : ℚ) ∧
    calculate_monthly_kwh (0.2 : ℚ) = 6 ∧
    calculate_cost 6 (0.5 : ℚ) = 3 := by
  refine ⟨fun w h => rfl, fun d => rfl, fun k p => rfl, ?_, ?_, ?_⟩ <;>
    norm_num [calculate_daily_kwh, calculate_monthly_kwh, calculate_cost]

/-- C6: for positive watts and hours, composing `calculate_monthly_kwh`
with `calculate_daily_kwh` equals the single formula
`watts * hours * 30 / 1000` (exactly over `ℚ`, hence within any
floating-point tolerance). -/
theorem monthly_daily_composition :
    ∀ w h : ℚ, 0 < w → 0 < h →
      calculate_monthly_kwh (calculate_daily_kwh w h) = w * h * 30 / 1000 := by
  intro w h _ _
  unfold calculate_monthly_kwh calculate_daily_kwh
  ring

/-- C6 witness: at watts = 100, hours = 2. -/
theorem monthly_daily_composition_witness :
    calculate_monthly_kwh (calculate_daily_kwh 100 2) = 100 * 2 * 30 / 1000 :=
  monthly_daily_composition 100 2 (by norm_num) (by norm_num)

/-- C7: `get_positive_float` never returns a non-positive or unparseable
value; it skips every invalid reply and returns the first reply that
parses to a positive number; on `["-5", "abc", "3.5"]` it returns `3.5`. -/
theorem get_positive_float_spec :
    get_positive_float ["-5", "abc", "3.5"] = some (7 / 2) ∧
    (∀ (inputs : List String) (v : ℚ), get_positive_float inputs = some v → 0 < v) ∧
    (∀ inputs : List String, get_positive_float inputs =
      ((inputs.filterMap parseFloat).filter (fun v => decide (0 < v))).head?) := by
  refine ⟨?_, get_positive_float_pos, get_positive_float_eq_head_of_valid⟩
  rw [show (7 / 2 : ℚ) = Rat.divInt 7 2 by rw [Rat.divInt_eq_div]; norm_num]
  rfl

/-- C7 witness: the value returned on `["-5", "abc", "3.5"]` is positive. -/
theorem get_positive_float_spec_witness : (0 : ℚ) < 7 / 2 :=
  get_positive_float_spec.2.1 ["-5", "abc", "3.5"] (7 / 2) get_positive_float_spec.1

/-- C8: in the edit flow's delete sub-action on index `i`, any
confirmation other than `y` (case-insensitively, after stripping) leaves
the list completely unchanged; a `y` removes exactly the entry at `i`,
leaving every other entry's data unchanged and in order. -/
theorem delete_confirmation_spec :
    ∀ (apps : List Appliance) (i : ℕ) (conf : String), i < apps.length →
      (pyLower (pyStrip conf) ≠ "y" →
        edit_iter apps i (.delete conf) = (apps, .deleteCanceled)) ∧
      (pyLower (pyStrip conf) = "y" →
        edit_iter apps i (.delete conf) = (apps.take i ++ apps.drop (i + 1), .deleted)) := by
  intro apps i conf hi
  unfold edit_iter
  rw [List.getElem?_eq_getElem hi]
  dsimp only
  constructor
  · intro h
    rw [if_neg h]
  · intro h
    rw [if_pos h, List.eraseIdx_eq_take_drop_succ]

/-- C8 witness: deleting index 1 of a three-element list with `" Y "`
removes exactly the middle entry; replying `"n"` changes nothing. -/
theorem delete_confirmation_spec_witness :
    edit_iter [⟨"a", 1, 1⟩, ⟨"b", 2, 2⟩, ⟨"c", 3, 3⟩] 1 (.delete " Y ") =
      ([⟨"a", 1, 1⟩, ⟨"c", 3, 3⟩], .deleted) ∧
    edit_iter [⟨"a", 1, 1⟩, ⟨"b", 2, 2⟩, ⟨"c", 3, 3⟩] 1 (.delete "n") =
      ([⟨"a", 1, 1⟩, ⟨"b", 2, 2⟩, ⟨"c", 3, 3⟩], .deleteCanceled) :=
  ⟨(delete_confirmation_spec [⟨"a", 1, 1⟩, ⟨"b", 2, 2⟩, ⟨"c", 3, 3⟩] 1 " Y "
      (by decide)).2 rfl,
   (delete_confirmation_spec [⟨"a", 1, 1⟩, ⟨"b", 2, 2⟩, ⟨"c", 3, 3⟩] 1 "n"
      (by decide)).1 (by decide)⟩

/-- C9: in the edit flow's name sub-action, a replacement name that is
empty after stripping leaves the whole list unchanged and reports the
`Name cannot be empty` error; no mutation occurs. -/
theorem empty_name_edit_no_mutation :
    ∀ (apps : List Appliance) (i : ℕ) (r : String), i < apps.length → pyStrip r = "" →
      edit_iter apps i (.editName r) = (apps, .nameEmpty) := by
  intro apps i r hi hr
  unfold edit_iter
  rw [List.getElem?_eq_getElem hi]
  dsimp only
  rw [hr, if_neg (not_not_intro rfl)]

/-- C9 witness: a whitespace-only replacement at index 0. -/
theorem empty_name_edit_no_mutation_witness :
    edit_iter [⟨"a", 1, 1⟩] 0 (.editName "  ") = ([⟨"a", 1, 1⟩], .nameEmpty) :=
  empty_name_edit_no_mutation [⟨"a", 1, 1⟩] 0 "  " (by decide) rfl

/-- C10: the CALC_ONE, CALC_ALL and VIEW flows are read-only — for every
appliance list and all inputs they consume, the in-memory list after the
flow equals the list before it. -/
theorem readonly_flows_frame :
    ∀ (apps : List Appliance) (idx : ℕ) (price1 price2 : ℚ),
      (main_step apps (.calcOne idx price1)).1 = apps ∧
      (main_step apps (.calcAll price2)).1 = apps ∧
      (main_step apps .view).1 = apps :=
  fun apps idx price1 price2 =>
    ⟨main_step_calcOne_fst apps idx price1, main_step_calcAll_fst apps price2,
      main_step_view_fst apps⟩
